import Mathlib

/-!
Verification of the ComfyUI workflow-metadata extractor
(`src/utils/metadata/comfy.metadata.ts`).

The TypeScript module is shallowly embedded: decoded JSON values become
inductive trees, JavaScript's dynamically typed node-graph values become the
`ComfyValue` inductive, machine strings stay `String`, JSON numbers become `ℚ`,
and every code path that throws a runtime `TypeError` is modelled with
`Except String`.  `JSON.parse`/`JSON.stringify` applied to the two opaque
input documents are modelled at the value level: a serialized document is
represented by its decoded tree, so "decoding the string produced by
stringify" is the identity and structural equality of decodings is equality
of trees.  The empty string returned by `encode` (which does not decode as
JSON) is modelled as `none`.
-/

set_option maxHeartbeats 1000000

namespace Comfy

mutual
/-- A JSON object inside a workflow graph: `inputs`, `class_type` and the two
optional side-channel hash attributes, mirroring the `ComfyNode` type of the
source. -/
inductive ComfyNode : Type where
  | mk (inputs : List (String × ComfyValue)) (class_type : String)
      (ckpt_hash : Option String) (lora_hash : Option String)

/-- One graph value as decoded from the `prompt` JSON document, plus the two
runtime-only shapes `undef` (JavaScript `undefined`) and `node` (the result of
in-place edge resolution). -/
inductive ComfyValue : Type where
  | undef : ComfyValue
  | nullv : ComfyValue
  | bool (b : Bool) : ComfyValue
  | num (q : ℚ) : ComfyValue
  | str (s : String) : ComfyValue
  | arr (elems : List ComfyValue) : ComfyValue
  | node (n : ComfyNode) : ComfyValue
end

def ComfyNode.inputs : ComfyNode → List (String × ComfyValue)
  | .mk i _ _ _ => i

def ComfyNode.class_type : ComfyNode → String
  | .mk _ c _ _ => c

def ComfyNode.ckpt_hash : ComfyNode → Option String
  | .mk _ _ h _ => h

def ComfyNode.lora_hash : ComfyNode → Option String
  | .mk _ _ _ h => h

/-- A decoded JSON document (used for the `workflow` document, whose shape is
arbitrary). -/
inductive Json : Type where
  | null : Json
  | bool (b : Bool) : Json
  | num (q : ℚ) : Json
  | str (s : String) : Json
  | arr (elems : List Json) : Json
  | obj (fields : List (String × Json)) : Json

/-- JavaScript property read `inputs[k]` on a decoded JSON object: keys are
unique after `JSON.parse`, a missing key reads as `undefined`. -/
def jsGet : List (String × ComfyValue) → String → ComfyValue
  | [], _ => .undef
  | p :: t, k => if p.1 == k then p.2 else jsGet t k

/-- JavaScript truthiness of a graph value (`ℚ` has no NaN, so the NaN case
does not arise). -/
def truthy : ComfyValue → Bool
  | .undef => false
  | .nullv => false
  | .bool b => b
  | .num q => q != 0
  | .str s => s != ""
  | .arr _ => true
  | .node _ => true

/-- JavaScript ToString coercion, for the value shapes that occur in workflow
documents (node ids and sampler names are strings or integers; the
array-join and fractional-number renderings are not needed and are
approximated). -/
def jsToString : ComfyValue → String
  | .str s => s
  | .num q => if q.den == 1 then toString q.num else toString q
  | .bool b => if b then "true" else "false"
  | .nullv => "null"
  | .undef => "undefined"
  | .arr _ => ""
  | .node _ => "[object Object]"

/-- JavaScript strict equality `===` restricted to primitives; two distinct
object/array trees are distinct heap references, hence `false` (object
identity is not modelled). -/
def jsStrictEqPrim : ComfyValue → ComfyValue → Bool
  | .str a, .str b => a == b
  | .num a, .num b => a == b
  | .bool a, .bool b => a == b
  | .nullv, .nullv => true
  | .undef, .undef => true
  | _, _ => false

/-- JavaScript ToNumber, for the shapes `strength_model` can take
(string-to-number and array coercions are not modelled; `none` is NaN, whose
comparisons are all false). -/
def toNumberJS : ComfyValue → Option ℚ
  | .num q => some q
  | .nullv => some 0
  | .bool b => some (if b then 1 else 0)
  | _ => none

/-- Assignment `obj[k] = v` on a decoded JSON object: overwrite an existing
key in place (keys are unique after `JSON.parse`), else append. -/
def setKeyV : List (String × ComfyValue) → String → ComfyValue → List (String × ComfyValue)
  | [], k, v => [(k, v)]
  | p :: t, k, v => if p.1 == k then (k, v) :: t else p :: setKeyV t k v

/-- Lookup in the `hashes` record. -/
def lookupStr : List (String × String) → String → Option String
  | [], _ => none
  | p :: t, k => if p.1 == k then some p.2 else lookupStr t k

/-- Assignment `hashes[k] = v`: overwrite an existing key in place, else
append. -/
def setKey : List (String × String) → String → String → List (String × String)
  | [], k, v => [(k, v)]
  | p :: t, k, v => if p.1 == k then (k, v) :: t else p :: setKey t k v

/-- The coercion `(x as string) || undefined`: an empty-string hash is demoted to
`undefined`. -/
def truthyHashOpt : Option String → Option String
  | some s => if s = "" then none else some s
  | none => none

/-- Truthiness of an optional string (absent or empty is falsy). -/
def truthyOptStr : Option String → Bool
  | some s => s != ""
  | none => false

/-- JavaScript `str.split(sep)` for a one-character separator, on character lists
(`"".split(c)` is `[""]`, separators at the ends produce empty segments,
exactly as in JavaScript). -/
def splitChar (sep : Char) : List Char → List (List Char)
  | [] => [[]]
  | c :: rest =>
    let r := splitChar sep rest
    if c = sep then [] :: r
    else
      match r with
      | h :: t => (c :: h) :: t
      | [] => [[c]]

/-- The slashes a maximal run of `n` backslashes is replaced by: the pattern
greedily matches an odd number of characters at a time, so an odd-length run
becomes one slash and an even-length run becomes two. -/
def emitRun (n : Nat) : List Char :=
  if n = 0 then [] else if n % 2 = 0 then ['/', '/'] else ['/']

/-- State-machine scan for the global replace of `/\\(\\\\)*/` with `/`:
`n` counts the backslashes of the pending run. -/
def backslashAux : Nat → List Char → List Char
  | n, [] => emitRun n
  | n, c :: rest =>
    if c = '\\' then backslashAux (n + 1) rest
    else emitRun n ++ c :: backslashAux 0 rest

/-- The global replace of `/\\(\\\\)*/` with `/` over the whole string. -/
def backslashRuns (cs : List Char) : List Char :=
  backslashAux 0 cs

/-- The replace of `/\.[^/.]+$/` with the empty string: strip the last dot and everything after it,
provided at least one character follows the dot and none of them is a slash
or another dot. -/
def stripLastExtCh (cs : List Char) : List Char :=
  let r := cs.reverse
  let ext := r.takeWhile (fun c => c ≠ '.' && c ≠ '/')
  match r.drop ext.length with
  | '.' :: rest => if ext = [] then cs else rest.reverse
  | _ => cs

/-- Function `modelFileName` of the source: normalize backslash runs to slashes, take
the final `/`-separated segment, strip the trailing extension. -/
def modelFileName (name : String) : String :=
  let replaced := backslashRuns name.data
  let parts := splitChar '/' replaced
  String.mk (stripLastExtCh ((parts.getLast?).getD []))

/-- The last-extension strip on a whole string (used again on `models[0]` in the
a1111 compatibility step). -/
def stripLastExt (s : String) : String :=
  String.mk (stripLastExtCh s.data)

/-- Does `pat` occur as a contiguous subsequence? (The scan JavaScript's
`String.replace` with a global literal pattern performs.) -/
def containsSeq (pat : List Char) : List Char → Bool
  | [] => pat.isPrefixOf []
  | c :: rest => pat.isPrefixOf (c :: rest) || containsSeq pat rest

/-- JavaScript `str.replace(pat, rep)` with a global literal pattern: scan left to
right, replace non-overlapping occurrences, never rescan the replacement.
The fuel argument (instantiated with the text length, which the scan never
exceeds) only makes the recursion structural. -/
def replaceAllChF (pat rep : List Char) : Nat → List Char → List Char
  | _, [] => []
  | 0, l => l
  | fuel + 1, c :: rest =>
    if pat.isPrefixOf (c :: rest) && !pat.isEmpty then
      rep ++ replaceAllChF pat rep fuel (rest.drop (pat.length - 1))
    else c :: replaceAllChF pat rep fuel rest

/-- The global literal replace over a whole character list. -/
def replaceAllCh (pat rep l : List Char) : List Char :=
  replaceAllChF pat rep l.length l

/-- Function `cleanBadJson` of the source: replace the literal tokens `[NaN]` and then
`[Infinity]` with `[]`. -/
def cleanBadJson (s : String) : String :=
  String.mk (replaceAllCh "[Infinity]".data "[]".data
    (replaceAllCh "[NaN]".data "[]".data s.data))

/-- JavaScript `parseInt` with no radix argument on the identifier strings of the
`extra` block: skip leading whitespace, optional sign, longest decimal digit
run; `none` is NaN.  (The hexadecimal `0x` form does not occur in air
identifiers and is not modelled.) -/
def parseIntJSCh (cs : List Char) : Option Int :=
  let digitsToNat : List Char → Nat :=
    List.foldl (fun a c => a * 10 + (c.toNat - 48)) 0
  let core := cs.dropWhile (fun c => c = ' ' || c = '\t' || c = '\n' || c = '\r')
  match core with
  | '-' :: rest =>
    let d := rest.takeWhile Char.isDigit
    if d = [] then none else some (-(digitsToNat d : Int))
  | '+' :: rest =>
    let d := rest.takeWhile Char.isDigit
    if d = [] then none else some (digitsToNat d : Int)
  | other =>
    let d := other.takeWhile Char.isDigit
    if d = [] then none else some (digitsToNat d : Int)

/-- The opaque `exif` input of `canParse`: the two fields of interest, each a
string when present. -/
structure ExifInput : Type where
  prompt : Option String
  workflow : Option String

/-- Function `canParse` of the source: `exif.prompt && exif.workflow`, used as a
boolean capability gate (truthy iff both fields are present and non-empty). -/
def canParse (exif : ExifInput) : Bool :=
  truthyOptStr exif.prompt && truthyOptStr exif.workflow

/-- Property read `doc[k]` on a decoded workflow document (`none` is
`undefined`: missing key, or a non-object receiver). -/
def jsonField : Json → String → Option Json
  | .obj fs, k => (fs.find? (fun p => p.1 == k)).map (fun p => p.2)
  | _, _ => none

/-- JavaScript truthiness of a decoded JSON document. -/
def truthyJson : Json → Bool
  | .null => false
  | .bool b => b
  | .num q => q != 0
  | .str s => s != ""
  | .arr _ => true
  | .obj _ => true

/-- The graph key an unresolved edge `[sourceNodeId, outputSlot]` is looked
up under: `prompt[value[0]]` coerces the first element to a property key. -/
def edgeTargetKey (elems : List ComfyValue) : String :=
  match elems.head? with
  | some v => jsToString v
  | none => "undefined"

/-- Lookup of a node id in the decoded graph. -/
def lookupNode : List (String × ComfyNode) → String → Option ComfyNode
  | [], _ => none
  | p :: t, k => if p.1 == k then some p.2 else lookupNode t k

/-- The in-place edge-resolution sweep, as seen after the whole loop has run:
every top-level array input of every node has been rewritten to the
referenced node object (or `undefined` for a dangling id), and the referenced
object is itself in its final, resolved state.  The aliased object graph is
unfolded into trees; `fuel` bounds the unfolding depth and is chosen large
enough to be exhaustive on acyclic graphs (a cyclic export is outside the
module's domain).  Values that are not top-level arrays — including inline
object values, whose own inputs the loop never rewrites — are untouched. -/
def resolveNodeFuel (g : List (String × ComfyNode)) : Nat → ComfyNode → ComfyNode
  | 0, n => n
  | fuel + 1, n =>
    ComfyNode.mk
      (n.inputs.map (fun p =>
        (p.1,
          match p.2 with
          | .arr elems =>
            match lookupNode g (edgeTargetKey elems) with
            | some m => .node (resolveNodeFuel g fuel m)
            | none => .undef
          | v => v)))
      n.class_type n.ckpt_hash n.lora_hash

/-- The fully resolved graph (fuel `g.length + 1` exhausts any acyclic
reference chain). -/
def resolveGraph (g : List (String × ComfyNode)) : List (String × ComfyNode) :=
  g.map (fun p => (p.1, resolveNodeFuel g (g.length + 1) p.2))

/-- Function `getNumberValue` of the source: a plain number is returned as is,
otherwise the value's `Value` input is read — which throws a `TypeError`
unless the value is an object. -/
def getNumberValue (input : ComfyValue) : Except String ComfyValue :=
  match input with
  | .num q => .ok (.num q)
  | .node n => .ok (jsGet n.inputs "Value")
  | _ => .error "TypeError: cannot read Value of a non-object steps/cfg input"

/-- The `text_g`/`text_l` dual-encoder section of `getPromptText`. -/
def textGSection (n : ComfyNode) : ComfyValue :=
  let g := jsGet n.inputs "text_g"
  if truthy g then
    let l := jsGet n.inputs "text_l"
    if !truthy l || jsStrictEqPrim l g then g
    else .str (jsToString g ++ ", " ++ jsToString l)
  else .str ""

/-- Function `getPromptText` of the source.  A truthy string `text` is returned; a
`text` that is itself a node (its `class_type` is defined) is recursed into;
every other `text` shape falls through to the `text_g`/`text_l` section.  The
raw returned value is kept (the source's `as string` casts do not convert). -/
def getPromptText (n : ComfyNode) : ComfyValue :=
  match h : jsGet n.inputs "text" with
  | .str s => if s = "" then textGSection n else .str s
  | .node m => getPromptText m
  | _ => textGSection n
termination_by sizeOf n
decreasing_by
  have key : ∀ (l : List (String × ComfyValue)) (k : String) (m' : ComfyNode),
      jsGet l k = .node m' → sizeOf m' < sizeOf l := by
    intro l k m' hh
    induction l with
    | nil => simp [jsGet] at hh
    | cons p t ih =>
      rw [jsGet] at hh
      by_cases hk : p.1 == k
      · simp only [hk, if_true] at hh
        have h1 : sizeOf m' < sizeOf p.2 := by
          rw [hh]; cases m'; simp
        have h2 : sizeOf p.2 ≤ sizeOf p := by
          cases p; simp
        have h3 : sizeOf p ≤ sizeOf (p :: t) := by
          simp only [List.cons.sizeOf_spec]; omega
        omega
      · simp only [hk, if_false] at hh
        have := ih hh
        have h3 : sizeOf t < sizeOf (p :: t) := by simp
        omega
  have hm := key n.inputs "text" m h
  have hn : sizeOf n.inputs < sizeOf n := by
    cases n; simp [ComfyNode.inputs]; omega
  omega

/-- The call `getPromptText(value)` as invoked on the canonical sampler's
`positive`/`negative` inputs: `undefined` and `null` receivers throw, a
primitive receiver has `undefined` `inputs` and both optional-chained guards
fall through to `''`. -/
def getPromptTextV : ComfyValue → Except String ComfyValue
  | .undef => .error "TypeError: cannot read inputs of undefined"
  | .nullv => .error "TypeError: cannot read inputs of null"
  | .node n => .ok (getPromptText n)
  | _ => .ok (.str "")

/-- A recorded sampler entry: the (possibly copied and coerced) `inputs`
record of a `KSampler`/`KSamplerAdvanced` node. -/
abbrev Sampler := List (String × ComfyValue)

/-- The predicate of the canonical-sampler `find`:
`x.latent_image.class_type == 'EmptyLatentImage'` — reading `class_type`
throws on an `undefined`/`null` `latent_image`, and is `undefined` (hence a
failed comparison) on any other non-object value. -/
def samplerPred (s : Sampler) : Except String Bool :=
  match jsGet s "latent_image" with
  | .undef => .error "TypeError: cannot read class_type of undefined"
  | .nullv => .error "TypeError: cannot read class_type of null"
  | .node n => .ok (n.class_type == "EmptyLatentImage")
  | _ => .ok false

/-- JavaScript `Array.prototype.find` with a predicate that can throw: elements are
tested left to right, the first exception propagates. -/
def findE {α : Type} (p : α → Except String Bool) : List α → Except String (Option α)
  | [] => .ok none
  | x :: xs =>
    match p x with
    | .error e => .error e
    | .ok true => .ok (some x)
    | .ok false => findE p xs

/-- The canonical-sampler selection of `parse`:
`samplerNodes.find(pred) ?? samplerNodes[0]`. -/
def selectSampler (l : List Sampler) : Except String (Option Sampler) :=
  match findE samplerPred l with
  | .error e => .error e
  | .ok (some s) => .ok (some s)
  | .ok none => .ok l.head?

/-- One resource reference accumulated by `parse` (absent fields read as
`undefined`). -/
structure SDResource : Type where
  name : String
  type : String
  weight : ComfyValue := .undef
  weightClip : ComfyValue := .undef
  hash : Option String := none

/-- The per-category side tables accumulated during the classification
sweep. -/
structure Acc : Type where
  samplers : List Sampler
  models : List String
  upscalers : List ComfyValue
  vaes : List ComfyValue
  controlNets : List ComfyValue
  additionalResources : List SDResource
  hashes : List (String × String)

def emptyAcc : Acc := ⟨[], [], [], [], [], [], []⟩

/-- The LoRA skip guard `strength < 0.001 && strength > -0.001` (comparisons
against NaN are false, so a non-numeric strength is never skipped). -/
def strengthNearZero (v : ComfyValue) : Bool :=
  match toNumberJS v with
  | some q => decide (q < 1 / 1000) && decide (-(1 / 1000 : ℚ) < q)
  | none => false

/-- The `KSamplerAdvanced` block of the sweep (lines 30–37 of the source):
copy the inputs, coerce `steps` and `cfg`, append to the sampler list. -/
def stepSamplerAdvanced (acc : Acc) (node : ComfyNode) : Except String Acc :=
  if node.class_type == "KSamplerAdvanced" then do
    let steps ← getNumberValue (jsGet node.inputs "steps")
    let cfg ← getNumberValue (jsGet node.inputs "cfg")
    let simplified := setKeyV (setKeyV node.inputs "steps" steps) "cfg" cfg
    pure { acc with samplers := acc.samplers ++ [simplified] }
  else pure acc

/-- The `KSampler` block (line 39): append the inputs record directly. -/
def stepSampler (acc : Acc) (node : ComfyNode) : Acc :=
  if node.class_type == "KSampler" then
    { acc with samplers := acc.samplers ++ [node.inputs] }
  else acc

/-- The `LoraLoader` block (lines 41–61): skip when the strength is within
±0.001, otherwise record the hash under `lora:<basefilename>` (when carried)
and append one resource reference. -/
def stepLora (acc : Acc) (node : ComfyNode) : Except String Acc :=
  if node.class_type == "LoraLoader" then
    if strengthNearZero (jsGet node.inputs "strength_model") then pure acc
    else do
      let hashv := truthyHashOpt node.lora_hash
      let lname ←
        match jsGet node.inputs "lora_name" with
        | .str s => pure (modelFileName s)
        | _ => Except.error "TypeError: lora_name has no replace method"
      let hashes :=
        match hashv with
        | some h => setKey acc.hashes ("lora:" ++ lname) h
        | none => acc.hashes
      pure { acc with
        hashes := hashes,
        additionalResources := acc.additionalResources ++
          [{ name := lname, type := "lora",
             weight := jsGet node.inputs "strength_model",
             weightClip := jsGet node.inputs "strength_clip",
             hash := hashv }] }
  else pure acc

/-- The `CheckpointLoaderSimple` block (lines 63–72): append the base
filename to the models list, record the hash under `model` only when that
entry is still falsy, append one resource reference. -/
def stepCheckpoint (acc : Acc) (node : ComfyNode) : Except String Acc :=
  if node.class_type == "CheckpointLoaderSimple" then do
    let mname ←
      match jsGet node.inputs "ckpt_name" with
      | .str s => pure (modelFileName s)
      | _ => Except.error "TypeError: ckpt_name has no replace method"
    let hashv := truthyHashOpt node.ckpt_hash
    let hashes :=
      if !truthyOptStr (lookupStr acc.hashes "model") then
        match hashv with
        | some h => setKey acc.hashes "model" h
        | none => acc.hashes
      else acc.hashes
    pure { acc with
      models := acc.models ++ [mname],
      hashes := hashes,
      additionalResources := acc.additionalResources ++
        [{ name := mname, type := "model", hash := hashv }] }
  else pure acc

/-- The `UpscaleModelLoader` block (line 74). -/
def stepUpscaler (acc : Acc) (node : ComfyNode) : Acc :=
  if node.class_type == "UpscaleModelLoader" then
    { acc with upscalers := acc.upscalers ++ [jsGet node.inputs "model_name"] }
  else acc

/-- The `VAELoader` block (line 76). -/
def stepVae (acc : Acc) (node : ComfyNode) : Acc :=
  if node.class_type == "VAELoader" then
    { acc with vaes := acc.vaes ++ [jsGet node.inputs "vae_name"] }
  else acc

/-- The `ControlNetLoader` block (lines 78–79). -/
def stepControlNet (acc : Acc) (node : ComfyNode) : Acc :=
  if node.class_type == "ControlNetLoader" then
    { acc with controlNets := acc.controlNets ++ [jsGet node.inputs "control_net_name"] }
  else acc

/-- The classification body of the sweep for one (already resolved) node:
the sequential `class_type` blocks of lines 30–79 of the source (at most one
fires, since `class_type` is a single string). -/
def classifyNode (acc : Acc) (node : ComfyNode) : Except String Acc := do
  let acc ← stepSamplerAdvanced acc node
  let acc := stepSampler acc node
  let acc ← stepLora acc node
  let acc ← stepCheckpoint acc node
  pure (stepControlNet (stepVae (stepUpscaler acc node) node) node)

/-- The whole classification sweep over the resolved node list (in traversal
order). -/
def classifyGraph (nodes : List ComfyNode) : Except String Acc :=
  nodes.foldlM classifyNode emptyAcc

/-- The list the loop `for (const air of airs)` iterates: an array yields its
elements, a string yields its characters, any other truthy value is not
iterable and throws.  (Falsy values are filtered by `if (!airs) continue`
before this point.) -/
def airEntryItems (airs : Json) : Except String (List Json) :=
  match airs with
  | .arr l => .ok l
  | .str s => .ok (s.data.map (fun c => .str (String.mk [c])))
  | _ => .error "TypeError: airs is not iterable"

/-- One entry of an air list: `const [modelId, versionId] = air.split('@')`;
a truthy version id goes to the version list, else a truthy model id goes to
the model list; `parseInt` results are recorded as produced (NaN as `none`).
A non-string entry has no `split` method and throws. -/
def processAir (acc : List (Option Int) × List (Option Int)) (air : Json) :
    Except String (List (Option Int) × List (Option Int)) :=
  match air with
  | .str s =>
    let parts := splitChar '@' s.data
    let modelId := (parts.head?).getD []
    match parts.drop 1 with
    | versionId :: _ =>
      if versionId ≠ [] then .ok (acc.1 ++ [parseIntJSCh versionId], acc.2)
      else if modelId ≠ [] then .ok (acc.1, acc.2 ++ [parseIntJSCh modelId])
      else .ok acc
    | [] =>
      if modelId ≠ [] then .ok (acc.1, acc.2 ++ [parseIntJSCh modelId])
      else .ok acc
  | _ => .error "TypeError: air.split is not a function"

def AIR_KEYS : List String := ["ckpt_airs", "lora_airs", "embedding_airs"]

/-- The workflow-extras scan of `parse` (lines 86–99 of the source): read
`workflow?.extra`, and for each air key accumulate version ids and model
ids. -/
def airScan (workflow : Json) : Except String (List (Option Int) × List (Option Int)) :=
  match jsonField workflow "extra" with
  | none => .ok ([], [])
  | some extra =>
    if !truthyJson extra then .ok ([], [])
    else
      AIR_KEYS.foldlM
        (fun acc key =>
          match jsonField extra key with
          | none => .ok acc
          | some airs =>
            if !truthyJson airs then .ok acc
            else do
              let items ← airEntryItems airs
              items.foldlM processAir acc)
        ([], [])

/-- The serialized `{prompt, workflow}` round-trip payload stored in the
`comfy` field, kept as its decoded value (`JSON.stringify` followed by a
structural decode is the identity on the value level). -/
structure ComfyPayload : Type where
  prompt : List (String × ComfyNode)
  workflow : Json

/-- The normalized metadata record `parse` returns.  Scalar generation
parameters keep their raw graph values (`undef` for an absent input); the
compatibility fields `Model`/`Model hash` start absent. -/
structure Metadata : Type where
  prompt : ComfyValue
  negativePrompt : ComfyValue
  cfgScale : ComfyValue
  steps : ComfyValue
  seed : ComfyValue
  sampler : ComfyValue
  scheduler : ComfyValue
  denoise : ComfyValue
  width : ComfyValue
  height : ComfyValue
  hashes : List (String × String)
  models : List String
  upscalers : List ComfyValue
  vaes : List ComfyValue
  additionalResources : List SDResource
  controlNets : List ComfyValue
  versionIds : List (Option Int)
  modelIds : List (Option Int)
  comfy : Option ComfyPayload
  Model : Option String := none
  ModelHash : Option String := none

/-- The reads `initialSamplerNode.latent_image.inputs.width/height`: reading `inputs`
throws unless `latent_image` is an object. -/
def latentDims (initial : Sampler) : Except String (ComfyValue × ComfyValue) :=
  match jsGet initial "latent_image" with
  | .node ln => .ok (jsGet ln.inputs "width", jsGet ln.inputs "height")
  | _ => .error "TypeError: cannot read inputs of latent_image"

/-- Lines 125–129 of the source: mirror the first accumulated `model`
resource into the legacy `Model`/`Model hash` fields. -/
def modelResourceCompat (m : Metadata) : Metadata :=
  match m.additionalResources.find? (fun r => r.type == "model") with
  | some r => { m with Model := some r.name, ModelHash := r.hash }
  | none => m

/-- Lines 131–135 of the source: when the canonical sampler's positive
conditioning is a `ControlNetApply` node, overwrite the prompt with the
nested conditioning node's raw `text` input (reading `inputs.text` throws
unless `conditioning` is an object). -/
def controlNetOverride (initial : Sampler) (m : Metadata) : Except String Metadata :=
  match jsGet initial "positive" with
  | .node pn =>
    if pn.class_type == "ControlNetApply" then
      match jsGet pn.inputs "conditioning" with
      | .node cn => .ok { m with prompt := jsGet cn.inputs "text" }
      | _ => .error "TypeError: cannot read inputs of conditioning"
    else .ok m
  | _ => .ok m

/-- Modelled from the spec: `findKeyForValue` lives in `~/utils/map-helpers`,
which is not among the sources; §4.11 specifies a reverse lookup — "find any
table key whose associated value equals the probe string; first match in
iteration order wins". -/
def findKeyForValue (m : List (String × String)) (v : String) : Option String :=
  (m.find? (fun p => p.2 == v)).map (fun p => p.1)

/-- Function `a1111Compatability` of the source: remap the sampler name through the
external sampler table (trying the `_karras` variant first when the scheduler
is `karras`), then overwrite `Model` with the extension-stripped first model
name. -/
def a1111Compatability (samplerMap : List (String × String)) (m : Metadata) : Metadata :=
  let isKarras : Bool :=
    match m.scheduler with
    | .str s => s == "karras"
    | _ => false
  let a1 : Option String :=
    if isKarras then findKeyForValue samplerMap (jsToString m.sampler ++ "_karras")
    else none
  let a2 : Option String :=
    if truthyOptStr a1 then a1
    else
      match m.sampler with
      | .str s => findKeyForValue samplerMap s
      | _ => none
  let m :=
    if truthyOptStr a2 then
      { m with sampler := match a2 with | some k => .str k | none => m.sampler }
    else m
  match m.models with
  | [] => m
  | mn :: _ => { m with Model := some (stripLastExt mn) }

/-- Function `parse` of the source, over the already decoded `prompt` graph and
`workflow` document (structural JSON decoding of the two input strings is
taken as given; `cleanBadJson` is verified separately at the text level).
The external sampler translation table is passed in as the read-only constant
it is.  Every runtime throw surfaces as `.error`; no partial record exists. -/
def parse (samplerMap : List (String × String)) (g : List (String × ComfyNode))
    (workflow : Json) : Except String Metadata :=
  let rg := resolveGraph g
  match classifyGraph (rg.map (fun p => p.2)) with
  | .error e => .error e
  | .ok acc =>
    match selectSampler acc.samplers with
    | .error e => .error e
    | .ok sel =>
      match airScan workflow with
      | .error e => .error e
      | .ok ids =>
        match sel with
        | none => .error "TypeError: cannot read positive of undefined"
        | some initial =>
          match getPromptTextV (jsGet initial "positive") with
          | .error e => .error e
          | .ok promptV =>
            match getPromptTextV (jsGet initial "negative") with
            | .error e => .error e
            | .ok negV =>
              match latentDims initial with
              | .error e => .error e
              | .ok wh =>
                let meta : Metadata :=
                  { prompt := promptV
                    negativePrompt := negV
                    cfgScale := jsGet initial "cfg"
                    steps := jsGet initial "steps"
                    seed := jsGet initial "seed"
                    sampler := jsGet initial "sampler_name"
                    scheduler := jsGet initial "scheduler"
                    denoise := jsGet initial "denoise"
                    width := wh.1
                    height := wh.2
                    hashes := acc.hashes
                    models := acc.models
                    upscalers := acc.upscalers
                    vaes := acc.vaes
                    additionalResources := acc.additionalResources
                    controlNets := acc.controlNets
                    versionIds := ids.1
                    modelIds := ids.2
                    comfy := some ⟨rg, workflow⟩ }
                let meta := modelResourceCompat meta
                match controlNetOverride initial meta with
                | .error e => .error e
                | .ok meta2 => .ok (a1111Compatability samplerMap meta2)

/-- Function `encode` of the source: recover the workflow document from the `comfy`
round-trip payload when it carries a truthy `workflow`, else return the empty
string.  At the value level the re-serialized document is the document
itself, and the empty string — which does not decode as JSON — is `none`. -/
def encode (meta : Metadata) : Option Json :=
  match meta.comfy with
  | some payload => if truthyJson payload.workflow then some payload.workflow else none
  | none => none

/-- The `model`-hash contribution of one node, as the spec's invariant reads:
a `CheckpointLoaderSimple` carrying a (non-empty) `ckpt_hash` offers that
hash, every other node offers nothing. -/
def nodeModelHash (n : ComfyNode) : Option String :=
  if n.class_type == "CheckpointLoaderSimple" then truthyHashOpt n.ckpt_hash else none

/-- The `model`-hash entry the spec prescribes for a whole traversal: the
hash of the first checkpoint loader in traversal order that carries one
("first model loader wins"). -/
def firstModelHashSpec : List ComfyNode → Option String
  | [] => none
  | n :: ns =>
    match nodeModelHash n with
    | some h => some h
    | none => firstModelHashSpec ns

/-- Combinator: keep `a` if it is already a truthy entry, else take `b` if offered, else `a`: how
one guarded `if (!hashes.model && hash) hashes.model = hash` write combines
with the entry's prior state. -/
def hashOrElse (a b : Option String) : Option String :=
  if truthyOptStr a then a else match b with | some h => some h | none => a

/-- The width/height source the claims point at: the `width` and `height`
inputs of the canonical sampler's `latent_image` node, extracted by the same
pipeline `parse` runs (resolution, classification, selection). -/
def canonicalLatentDims (g : List (String × ComfyNode)) : Option (ComfyValue × ComfyValue) :=
  match classifyGraph ((resolveGraph g).map (fun p => p.2)) with
  | .error _ => none
  | .ok acc =>
    match selectSampler acc.samplers with
    | .ok (some initial) =>
      match latentDims initial with
      | .ok wh => some wh
      | .error _ => none
    | _ => none

/-- Discriminator for `Except` results (used to turn a definitional
evaluation into a contradiction with an `error` hypothesis). -/
def isOkE {α : Type} : Except String α → Bool
  | .ok _ => true
  | .error _ => false

/-! Concrete fixtures used by the witness and counterexample theorems. -/

/-- A two-node graph: a `KSampler` whose `latent_image` edge points at an
`EmptyLatentImage` node. -/
def latentW : ComfyNode :=
  .mk [("width", .num 512), ("height", .num 512)] "EmptyLatentImage" none none

def samplerW : ComfyNode :=
  .mk
    [("seed", .num 42), ("steps", .num 20), ("cfg", .num 7),
     ("sampler_name", .str "euler"), ("scheduler", .str "normal"), ("denoise", .num 1),
     ("latent_image", .arr [.str "3", .num 0]),
     ("positive", .str "p"), ("negative", .str "n")]
    "KSampler" none none

def gW : List (String × ComfyNode) := [("3", latentW), ("1", samplerW)]

/-- Two checkpoint loaders, both carrying hashes. -/
def ckA : ComfyNode :=
  .mk [("ckpt_name", .str "sd.safetensors")] "CheckpointLoaderSimple" (some "aaa") none

def ckB : ComfyNode :=
  .mk [("ckpt_name", .str "x.ckpt")] "CheckpointLoaderSimple" (some "bbb") none

/-- LoRA loaders below and above the strength threshold. -/
def loraSmallN : ComfyNode :=
  .mk [("strength_model", .num (1 / 2000)), ("strength_clip", .num 1),
       ("lora_name", .str "L.safetensors")] "LoraLoader" none (some "lh")

def loraBigN : ComfyNode :=
  .mk [("strength_model", .num (1 / 2)), ("strength_clip", .num 1),
       ("lora_name", .str "L.safetensors")] "LoraLoader" none (some "lh")

/-- Two sampler entries: only the second one's `latent_image` is an
`EmptyLatentImage`. -/
def samplerEntryA : Sampler :=
  [("latent_image", .node (.mk [] "LatentUpscale" none none))]

def samplerEntryB : Sampler :=
  [("latent_image", .node (.mk [] "EmptyLatentImage" none none))]

/-- A conditioning node whose `text_l` is present but empty. -/
def textCexNode : ComfyNode :=
  .mk [("text_g", .str "a cat"), ("text_l", .str "")] "CLIPTextEncodeSDXL" none none

/-- The accumulator `classifyGraph [ckA, ckB]` produces. -/
def ckAccW : Acc :=
  ⟨[], ["sd", "x"], [], [], [],
   [{ name := "sd", type := "model", hash := some "aaa" },
    { name := "x", type := "model", hash := some "bbb" }],
   [("model", "aaa")]⟩

/-- The accumulator `classifyNode emptyAcc loraBigN` produces. -/
def loraAccW : Acc :=
  ⟨[], [], [], [], [],
   [{ name := "L", type := "lora", weight := .num (1 / 2), weightClip := .num 1,
      hash := some "lh" }],
   [("lora:L", "lh")]⟩

/-! ## Supporting lemmas -/

theorem replaceAllChF_of_not_contains (pat rep : List Char) :
    ∀ (fuel : Nat) (l : List Char), containsSeq pat l = false →
      replaceAllChF pat rep fuel l = l := by
  intro fuel
  induction fuel with
  | zero =>
    intro l _
    cases l <;> rfl
  | succ f ih =>
    intro l h
    cases l with
    | nil => rfl
    | cons c rest =>
      rw [containsSeq, Bool.or_eq_false_iff] at h
      rw [replaceAllChF, h.1]
      simp only [Bool.false_and, Bool.false_eq_true, if_false]
      rw [ih rest h.2]

theorem replaceAllCh_of_not_contains (pat rep : List Char) (l : List Char)
    (h : containsSeq pat l = false) : replaceAllCh pat rep l = l :=
  replaceAllChF_of_not_contains pat rep l.length l h

theorem findE_all_false {α : Type} (p : α → Except String Bool) :
    ∀ l : List α, (∀ y ∈ l, p y = .ok false) → findE p l = .ok none := by
  intro l
  induction l with
  | nil => intro _; rfl
  | cons x xs ih =>
    intro h
    rw [findE, h x (by simp)]
    exact ih (fun y hy => h y (by simp [hy]))

theorem findE_first_true {α : Type} (p : α → Except String Bool) :
    ∀ (pre : List α) (x : α) (post : List α), (∀ y ∈ pre, p y = .ok false) →
      p x = .ok true → findE p (pre ++ x :: post) = .ok (some x) := by
  intro pre
  induction pre with
  | nil => intro x post _ hx; rw [List.nil_append, findE, hx]
  | cons y ys ih =>
    intro x post h hx
    rw [List.cons_append, findE, h y (by simp)]
    exact ih x post (fun z hz => h z (by simp [hz])) hx

theorem lookupStr_setKey_ne (k k' v : String) (hk : k ≠ k') :
    ∀ hs : List (String × String), lookupStr (setKey hs k v) k' = lookupStr hs k' := by
  intro hs
  induction hs with
  | nil =>
    simp only [setKey, lookupStr]
    rw [if_neg (by simpa using hk)]
  | cons p t ih =>
    rw [setKey]
    by_cases hp : p.1 == k
    · rw [if_pos hp, lookupStr, if_neg (by simpa using hk), lookupStr]
      have : (p.1 == k') = false := by
        have hpk : p.1 = k := by simpa using hp
        simpa [hpk] using hk
      rw [this]
      simp
    · rw [if_neg (by simpa using hp), lookupStr, lookupStr]
      by_cases hq : p.1 == k'
      · rw [if_pos hq, if_pos hq]
      · rw [if_neg (by simpa using hq), if_neg (by simpa using hq)]
        exact ih

theorem lora_key_ne_model (s : String) : ("lora:" ++ s) ≠ "model" := by
  intro h
  have hd : ("lora:" ++ s).data = "model".data := congrArg String.data h
  rw [String.data_append] at hd
  have hl := congrArg List.length hd
  rw [List.length_append] at hl
  have h0 : s.data.length = 0 := by
    have h5 : ("lora:".data).length = 5 := rfl
    have h5' : ("model".data).length = 5 := rfl
    omega
  rw [List.length_eq_zero.mp h0, List.append_nil] at hd
  exact absurd hd (by decide)

theorem hashOrElse_none (a : Option String) : hashOrElse a none = a := by
  unfold hashOrElse
  split <;> rfl

theorem nodeModelHash_ne_empty (n : ComfyNode) (h : String)
    (hh : nodeModelHash n = some h) : h ≠ "" := by
  unfold nodeModelHash at hh
  split at hh
  · unfold truthyHashOpt at hh
    split at hh
    · split at hh
      · exact absurd hh (by simp)
      · intro he
        rw [he] at hh
        simp only [Option.some.injEq] at hh
        simp_all
    · exact absurd hh (by simp)
  · exact absurd hh (by simp)

theorem hashOrElse_step (a c : Option String) (n : ComfyNode) :
    hashOrElse (hashOrElse a (nodeModelHash n)) c =
      hashOrElse a (match nodeModelHash n with | some h => some h | none => c) := by
  cases hb : nodeModelHash n with
  | none => rw [hashOrElse_none]
  | some h =>
    have hne : h ≠ "" := nodeModelHash_ne_empty n h hb
    show hashOrElse (hashOrElse a (some h)) c = hashOrElse a (some h)
    by_cases ha : truthyOptStr a = true
    · have h1 : hashOrElse a (some h) = a := by
        unfold hashOrElse; rw [if_pos ha]
      rw [h1]
      unfold hashOrElse; rw [if_pos ha]
    · have h1 : hashOrElse a (some h) = some h := by
        unfold hashOrElse; rw [if_neg ha]
      rw [h1]
      unfold hashOrElse
      rw [if_pos (by simp [truthyOptStr, hne])]

theorem lookupStr_setKey_self (k v : String) :
    ∀ hs : List (String × String), lookupStr (setKey hs k v) k = some v := by
  intro hs
  induction hs with
  | nil => simp [setKey, lookupStr]
  | cons p t ih =>
    rw [setKey]
    by_cases hp : p.1 == k
    · rw [if_pos hp, lookupStr, if_pos (by simp)]
    · rw [if_neg hp, lookupStr, if_neg hp]
      exact ih

theorem stepSamplerAdvanced_hashes (acc acc' : Acc) (n : ComfyNode)
    (h : stepSamplerAdvanced acc n = .ok acc') : acc'.hashes = acc.hashes := by
  unfold stepSamplerAdvanced at h
  split at h
  · simp only [bind, Except.bind] at h
    cases h1 : getNumberValue (jsGet n.inputs "steps") with
    | error e => rw [h1] at h; exact absurd h (by simp)
    | ok steps =>
      rw [h1] at h
      cases h2 : getNumberValue (jsGet n.inputs "cfg") with
      | error e => rw [h2] at h; exact absurd h (by simp)
      | ok cfg =>
        rw [h2] at h
        simp only [pure, Except.pure, Except.ok.injEq] at h
        rw [← h]
  · simp only [pure, Except.pure, Except.ok.injEq] at h
    rw [← h]

theorem stepSampler_hashes (acc : Acc) (n : ComfyNode) :
    (stepSampler acc n).hashes = acc.hashes := by
  unfold stepSampler
  split <;> rfl

theorem stepUpscaler_hashes (acc : Acc) (n : ComfyNode) :
    (stepUpscaler acc n).hashes = acc.hashes := by
  unfold stepUpscaler
  split <;> rfl

theorem stepVae_hashes (acc : Acc) (n : ComfyNode) :
    (stepVae acc n).hashes = acc.hashes := by
  unfold stepVae
  split <;> rfl

theorem stepControlNet_hashes (acc : Acc) (n : ComfyNode) :
    (stepControlNet acc n).hashes = acc.hashes := by
  unfold stepControlNet
  split <;> rfl

theorem stepLora_model_hash (acc acc' : Acc) (n : ComfyNode)
    (h : stepLora acc n = .ok acc') :
    lookupStr acc'.hashes "model" = lookupStr acc.hashes "model" := by
  unfold stepLora at h
  split at h
  · split at h
    · simp only [pure, Except.pure, Except.ok.injEq] at h
      rw [← h]
    · simp only [bind, Except.bind] at h
      split at h
      · simp only [pure, Except.pure, Except.ok.injEq] at h
        rw [← h]
        simp only []
        split
        · exact lookupStr_setKey_ne _ "model" _ (lora_key_ne_model _) acc.hashes
        · rfl
      · exact absurd h (by simp)
  · simp only [pure, Except.pure, Except.ok.injEq] at h
    rw [← h]

theorem stepCheckpoint_model_hash (acc acc' : Acc) (n : ComfyNode)
    (h : stepCheckpoint acc n = .ok acc') :
    lookupStr acc'.hashes "model" =
      hashOrElse (lookupStr acc.hashes "model") (nodeModelHash n) := by
  unfold stepCheckpoint at h
  unfold nodeModelHash
  split at h
  · rename_i hct
    rw [if_pos hct]
    simp only [bind, Except.bind] at h
    split at h
    · simp only [pure, Except.pure, Except.ok.injEq] at h
      rw [← h]
      simp only []
      unfold hashOrElse
      by_cases hcur : truthyOptStr (lookupStr acc.hashes "model") = true
      · rw [if_pos hcur]
        rw [if_neg (by simp [hcur])]
      · rw [if_neg hcur]
        rw [if_pos (by simp [hcur])]
        cases hv : truthyHashOpt n.ckpt_hash with
        | some hsh => exact lookupStr_setKey_self "model" hsh acc.hashes
        | none => rfl
    · exact absurd h (by simp)
  · rename_i hct
    rw [if_neg hct]
    simp only [pure, Except.pure, Except.ok.injEq] at h
    rw [← h, hashOrElse_none]

theorem classifyNode_model_hash (acc acc' : Acc) (n : ComfyNode)
    (h : classifyNode acc n = .ok acc') :
    lookupStr acc'.hashes "model" =
      hashOrElse (lookupStr acc.hashes "model") (nodeModelHash n) := by
  unfold classifyNode at h
  simp only [bind, Except.bind] at h
  cases hA : stepSamplerAdvanced acc n with
  | error e => rw [hA] at h; exact absurd h (by simp)
  | ok a1 =>
    rw [hA] at h
    dsimp only at h
    cases hL : stepLora (stepSampler a1 n) n with
    | error e => rw [hL] at h; exact absurd h (by simp)
    | ok a3 =>
      rw [hL] at h
      dsimp only at h
      cases hC : stepCheckpoint a3 n with
      | error e => rw [hC] at h; exact absurd h (by simp)
      | ok a4 =>
        rw [hC] at h
        simp only [pure, Except.pure, Except.ok.injEq] at h
        have e1 : acc'.hashes = a4.hashes := by
          rw [← h, stepControlNet_hashes, stepVae_hashes, stepUpscaler_hashes]
        have e2 := stepCheckpoint_model_hash a3 a4 n hC
        have e3 := stepLora_model_hash (stepSampler a1 n) a3 n hL
        rw [stepSampler_hashes] at e3
        have e4 := stepSamplerAdvanced_hashes acc a1 n hA
        rw [e1, e2, e3, e4]

theorem classifyFold_model_hash :
    ∀ (ns : List ComfyNode) (acc acc' : Acc),
      List.foldlM classifyNode acc ns = .ok acc' →
      lookupStr acc'.hashes "model" =
        hashOrElse (lookupStr acc.hashes "model") (firstModelHashSpec ns) := by
  intro ns
  induction ns with
  | nil =>
    intro acc acc' h
    simp only [List.foldlM, pure, Except.pure, Except.ok.injEq] at h
    rw [← h, firstModelHashSpec, hashOrElse_none]
  | cons n rest ih =>
    intro acc acc' h
    rw [List.foldlM_cons] at h
    simp only [bind, Except.bind] at h
    cases hstep : classifyNode acc n with
    | error e => rw [hstep] at h; exact absurd h (by simp)
    | ok a1 =>
      rw [hstep] at h
      dsimp only at h
      have hrest := ih a1 acc' h
      have hnode := classifyNode_model_hash acc a1 n hstep
      rw [hrest, hnode, hashOrElse_step, firstModelHashSpec]

/-! ## Claim theorems -/

/-- C6: `modelFileName` normalizes backslash separators to forward slashes,
takes the final path segment, and strips only the last extension:
`modelFileName "A\\B\\model.safetensors" = "model"` (single-backslash
separators), `modelFileName "dir/name.v2.ckpt" = "name.v2"`, and
`modelFileName "plain" = "plain"`. -/
theorem modelFileName_normalization :
    modelFileName "A\\B\\model.safetensors" = "model" ∧
    modelFileName "dir/name.v2.ckpt" = "name.v2" ∧
    modelFileName "plain" = "plain" :=
  ⟨rfl, rfl, rfl⟩

/-- C8: `canParse exif` is true iff `exif` carries both a non-empty `prompt`
field and a non-empty `workflow` field. -/
theorem canParse_iff_nonempty_fields (e : ExifInput) :
    canParse e = true ↔
      (∃ p, e.prompt = some p ∧ p ≠ "") ∧ (∃ w, e.workflow = some w ∧ w ≠ "") := by
  cases e with
  | mk ep ew => cases ep <;> cases ew <;> simp [canParse, truthyOptStr]

theorem canParse_iff_nonempty_fields_witness :
    canParse ⟨some "a", some "b"⟩ = true :=
  (canParse_iff_nonempty_fields ⟨some "a", some "b"⟩).mpr
    ⟨⟨"a", rfl, by decide⟩, ⟨"b", rfl, by decide⟩⟩

/-- C9: `cleanBadJson` replaces every literal `[NaN]`/`[Infinity]` token with
`[]` and alters nothing else: on any text free of the two tokens it is the
identity, and `NaN`/`Infinity` occurrences not wrapped in brackets survive
unchanged. -/
theorem cleanBadJson_conservative :
    (∀ s : String, containsSeq "[NaN]".data s.data = false →
        containsSeq "[Infinity]".data s.data = false → cleanBadJson s = s) ∧
    cleanBadJson "a[NaN]b[Infinity]c" = "a[]b[]c" ∧
    cleanBadJson "keep NaN and Infinity unwrapped" = "keep NaN and Infinity unwrapped" := by
  refine ⟨?_, rfl, rfl⟩
  intro s h1 h2
  unfold cleanBadJson
  rw [replaceAllCh_of_not_contains _ _ _ h1, replaceAllCh_of_not_contains _ _ _ h2]

theorem cleanBadJson_conservative_witness :
    cleanBadJson "plain text" = "plain text" :=
  cleanBadJson_conservative.1 "plain text" rfl rfl

/-- C2: the canonical sampler is the first accumulated sampler whose
`latent_image` reference has type tag `EmptyLatentImage`; if none qualifies
it is the first sampler in traversal order; in particular, of two samplers
where only the second qualifies, the second is selected.  The last conjunct
pins the predicate to the `latent_image` type tag. -/
theorem canonical_sampler_selection :
    (∀ (pre : List Sampler) (x : Sampler) (post : List Sampler),
        (∀ y ∈ pre, samplerPred y = .ok false) → samplerPred x = .ok true →
        selectSampler (pre ++ x :: post) = .ok (some x)) ∧
    (∀ l : List Sampler, (∀ y ∈ l, samplerPred y = .ok false) →
        selectSampler l = .ok l.head?) ∧
    (∀ s1 s2 : Sampler, samplerPred s1 = .ok false → samplerPred s2 = .ok true →
        selectSampler [s1, s2] = .ok (some s2)) ∧
    (∀ (s : Sampler) (n : ComfyNode), jsGet s "latent_image" = .node n →
        (samplerPred s = .ok true ↔ n.class_type = "EmptyLatentImage")) := by
  have hfirst : ∀ (pre : List Sampler) (x : Sampler) (post : List Sampler),
      (∀ y ∈ pre, samplerPred y = .ok false) → samplerPred x = .ok true →
      selectSampler (pre ++ x :: post) = .ok (some x) := by
    intro pre x post hp hx
    unfold selectSampler
    rw [findE_first_true samplerPred pre x post hp hx]
  refine ⟨hfirst, ?_, ?_, ?_⟩
  · intro l hl
    unfold selectSampler
    rw [findE_all_false samplerPred l hl]
  · intro s1 s2 h1 h2
    have := hfirst [s1] s2 [] (by intro y hy; simp at hy; rw [hy]; exact h1) h2
    simpa using this
  · intro s n hn
    unfold samplerPred
    rw [hn]
    simp

theorem canonical_sampler_selection_witness :
    selectSampler [samplerEntryA, samplerEntryB] = .ok (some samplerEntryB) :=
  canonical_sampler_selection.2.2.1 samplerEntryA samplerEntryB rfl rfl

/-- C4: during one classification sweep the `model` hash entry is written at
most once — it ends up equal to the `ckpt_hash` of the first
`CheckpointLoaderSimple` in traversal order carrying one, and every later
checkpoint loader's hash leaves it unchanged. -/
theorem model_hash_first_loader_wins (nodes : List ComfyNode) (acc : Acc)
    (h : classifyGraph nodes = .ok acc) :
    lookupStr acc.hashes "model" = firstModelHashSpec nodes := by
  unfold classifyGraph at h
  have hfold := classifyFold_model_hash nodes emptyAcc acc h
  rw [hfold]
  show hashOrElse none (firstModelHashSpec nodes) = firstModelHashSpec nodes
  unfold hashOrElse
  rw [if_neg (by simp [truthyOptStr])]
  cases firstModelHashSpec nodes <;> rfl

theorem model_hash_first_loader_wins_witness :
    lookupStr ckAccW.hashes "model" = firstModelHashSpec [ckA, ckB] :=
  model_hash_first_loader_wins [ckA, ckB] ckAccW rfl

/-- C5: a `LoraLoader` node whose `strength_model` magnitude is below 0.001
contributes no resource reference and no hash entry (the accumulator is
returned untouched); otherwise it contributes exactly one resource reference
`{name, lora, weight, weightClip, hash}` and records a present `lora_hash`
under `lora:<basefilename>`. -/
theorem loraLoader_strength_threshold (acc : Acc) (n : ComfyNode) (s : ℚ) (nm : String)
    (hct : n.class_type = "LoraLoader")
    (hs : jsGet n.inputs "strength_model" = .num s)
    (hn : jsGet n.inputs "lora_name" = .str nm) :
    (|s| < 1 / 1000 → classifyNode acc n = .ok acc) ∧
    (¬ |s| < 1 / 1000 →
      classifyNode acc n = .ok { acc with
        additionalResources := acc.additionalResources ++
          [{ name := modelFileName nm, type := "lora", weight := .num s,
             weightClip := jsGet n.inputs "strength_clip",
             hash := truthyHashOpt n.lora_hash }],
        hashes :=
          match truthyHashOpt n.lora_hash with
          | some h => setKey acc.hashes ("lora:" ++ modelFileName nm) h
          | none => acc.hashes }) := by
  have hA : ∀ a : Acc, stepSamplerAdvanced a n = .ok a := by
    intro a; unfold stepSamplerAdvanced; rw [hct]; rfl
  have hB : ∀ a : Acc, stepSampler a n = a := by
    intro a; unfold stepSampler; rw [hct]; rfl
  have hC : ∀ a : Acc, stepCheckpoint a n = .ok a := by
    intro a; unfold stepCheckpoint; rw [hct]; rfl
  have hU : ∀ a : Acc, stepUpscaler a n = a := by
    intro a; unfold stepUpscaler; rw [hct]; rfl
  have hV : ∀ a : Acc, stepVae a n = a := by
    intro a; unfold stepVae; rw [hct]; rfl
  have hX : ∀ a : Acc, stepControlNet a n = a := by
    intro a; unfold stepControlNet; rw [hct]; rfl
  have hmain : ∀ r : Acc, stepLora acc n = .ok r → classifyNode acc n = .ok r := by
    intro r hr
    unfold classifyNode
    simp only [bind, Except.bind]
    rw [hA acc]
    dsimp only
    rw [hB acc, hr]
    dsimp only
    rw [hC r]
    dsimp only
    rw [hU r, hV r, hX r]
    rfl
  constructor
  · intro hlt
    obtain ⟨h1a, h1b⟩ := abs_lt.mp hlt
    have hsz : strengthNearZero (jsGet n.inputs "strength_model") = true := by
      rw [hs]
      show (decide (s < 1 / 1000) && decide (-(1 / 1000 : ℚ) < s)) = true
      rw [Bool.and_eq_true]
      exact ⟨decide_eq_true h1b, decide_eq_true h1a⟩
    apply hmain
    unfold stepLora
    rw [hct, if_pos (show (("LoraLoader" : String) == "LoraLoader") = true by decide),
      hsz, if_pos rfl]
    rfl
  · intro hge
    have hno : ¬ (s < 1 / 1000 ∧ -(1 / 1000 : ℚ) < s) := fun hc =>
      hge (abs_lt.mpr ⟨hc.2, hc.1⟩)
    have hsz : strengthNearZero (jsGet n.inputs "strength_model") = false := by
      rw [hs]
      show (decide (s < 1 / 1000) && decide (-(1 / 1000 : ℚ) < s)) = false
      rcases not_and_or.mp hno with hx | hx
      · rw [decide_eq_false hx, Bool.false_and]
      · rw [decide_eq_false hx, Bool.and_false]
    apply hmain
    unfold stepLora
    rw [hct, if_pos (show (("LoraLoader" : String) == "LoraLoader") = true by decide),
      hsz, if_neg (by simp)]
    simp only [bind, Except.bind]
    rw [hn]
    dsimp only
    rw [hs]
    rfl

theorem loraLoader_strength_threshold_witness :
    classifyNode emptyAcc loraSmallN = .ok emptyAcc ∧
    classifyNode emptyAcc loraBigN = .ok loraAccW :=
  ⟨(loraLoader_strength_threshold emptyAcc loraSmallN (1 / 2000) "L.safetensors"
      rfl rfl rfl).1 (by rw [abs_lt]; constructor <;> norm_num),
   (loraLoader_strength_threshold emptyAcc loraBigN (1 / 2) "L.safetensors"
      rfl rfl rfl).2 (by rw [abs_lt]; push_neg; intro _; norm_num)⟩

/-- C3: whenever classification yields an empty sampler list, `parse` fails
(the canonical-sampler selection leaves `undefined` and the record build
throws); no partial record is returned. -/
theorem parse_fails_on_empty_samplers (smap : List (String × String))
    (g : List (String × ComfyNode)) (w : Json) (acc : Acc)
    (hc : classifyGraph ((resolveGraph g).map (fun p => p.2)) = .ok acc)
    (hs : acc.samplers = []) :
    ∃ e, parse smap g w = .error e := by
  unfold parse
  dsimp only
  rw [hc]
  dsimp only
  rw [hs]
  rw [show selectSampler [] = .ok (none : Option Sampler) from rfl]
  dsimp only
  cases haw : airScan w with
  | error e => exact ⟨e, rfl⟩
  | ok ids => exact ⟨"TypeError: cannot read positive of undefined", rfl⟩

theorem parse_fails_on_empty_samplers_witness :
    ∃ e, parse [] [] Json.null = .error e :=
  parse_fails_on_empty_samplers [] [] Json.null emptyAcc rfl rfl

theorem getPromptText_text_str (n : ComfyNode) (s : String)
    (h : jsGet n.inputs "text" = .str s) :
    getPromptText n = if s = "" then textGSection n else .str s := by
  unfold getPromptText
  split
  · rename_i s' heq
    rw [h] at heq
    injection heq with hss
    rw [hss]
  · rename_i m heq
    rw [h] at heq
    exact absurd heq (by simp)
  · rename_i hns hnn
    exact (hns s h).elim

theorem getPromptText_text_node (n : ComfyNode) (m : ComfyNode)
    (h : jsGet n.inputs "text" = .node m) :
    getPromptText n = getPromptText m := by
  conv_lhs => rw [getPromptText]
  split
  · rename_i s' heq
    rw [h] at heq
    exact absurd heq (by simp)
  · rename_i m' heq
    rw [h] at heq
    injection heq with hmm
    rw [hmm]
  · rename_i hns hnn
    exact (hnn m h).elim

theorem getPromptText_text_undef (n : ComfyNode)
    (h : jsGet n.inputs "text" = .undef) :
    getPromptText n = textGSection n := by
  unfold getPromptText
  split
  · rename_i s' heq
    rw [h] at heq
    exact absurd heq (by simp)
  · rename_i m' heq
    rw [h] at heq
    exact absurd heq (by simp)
  · rfl

/-- C7 counterexample: the claim prescribes the concatenation
`"a cat, "` for a conditioning node with `text_g = "a cat"` and a present,
non-identical `text_l = ""`, but the code treats the empty `text_l` as falsy
and returns `"a cat"` alone. -/
theorem getPromptText_empty_text_l_cex :
    getPromptText textCexNode = .str "a cat" ∧
      ("a cat" : String) ≠ "a cat" ++ ", " ++ "" := by
  constructor
  · rw [getPromptText_text_undef textCexNode rfl]
    rfl
  · decide

/-- C7 (amended): `getPromptText` returns the `text` input when it is a
non-empty string; recurses when `text` is itself a node; otherwise, with
presence read under JS truthiness, when the node carries a non-empty
`text_g` it returns `text_g` alone if `text_l` is absent, empty, or
identical to `text_g`, and the concatenation `"{text_g}, {text_l}"`
otherwise; and returns the empty string when neither input is usable. -/
theorem getPromptText_cases :
    (∀ (n : ComfyNode) (s : String), jsGet n.inputs "text" = .str s → s ≠ "" →
        getPromptText n = .str s) ∧
    (∀ (n m : ComfyNode), jsGet n.inputs "text" = .node m →
        getPromptText n = getPromptText m) ∧
    (∀ (n : ComfyNode) (g : String), jsGet n.inputs "text" = .undef →
        jsGet n.inputs "text_g" = .str g → g ≠ "" →
        ((jsGet n.inputs "text_l" = .undef ∨ jsGet n.inputs "text_l" = .str "" ∨
            jsGet n.inputs "text_l" = .str g) → getPromptText n = .str g) ∧
        (∀ l : String, jsGet n.inputs "text_l" = .str l → l ≠ "" → l ≠ g →
            getPromptText n = .str (g ++ ", " ++ l))) ∧
    (∀ n : ComfyNode, jsGet n.inputs "text" = .undef →
        jsGet n.inputs "text_g" = .undef → getPromptText n = .str "") := by
  refine ⟨?_, ?_, ?_, ?_⟩
  · intro n s h hne
    rw [getPromptText_text_str n s h, if_neg hne]
  · intro n m h
    exact getPromptText_text_node n m h
  · intro n g ht hg hgne
    constructor
    · intro hcase
      rw [getPromptText_text_undef n ht]
      unfold textGSection
      rw [hg]
      rw [if_pos (show truthy (.str g) = true by simp [truthy, hgne])]
      rcases hcase with hl | hl | hl <;> rw [hl]
      · rfl
      · rfl
      · rw [if_pos (show (!truthy (.str g) || jsStrictEqPrim (.str g) (.str g)) = true
          by simp [jsStrictEqPrim])]
    · intro l hl hlne hlg
      rw [getPromptText_text_undef n ht]
      unfold textGSection
      rw [hg, hl]
      rw [if_pos (show truthy (.str g) = true by simp [truthy, hgne])]
      rw [if_neg (show ¬ (!truthy (.str l) || jsStrictEqPrim (.str l) (.str g)) = true
        by simp [truthy, jsStrictEqPrim, hlne, hlg])]
      rfl
  · intro n ht hg
    rw [getPromptText_text_undef n ht]
    unfold textGSection
    rw [hg]
    rfl

theorem getPromptText_cases_witness :
    getPromptText (ComfyNode.mk [("text", .str "a cat")] "CLIPTextEncode" none none) =
      .str "a cat" :=
  getPromptText_cases.1 (ComfyNode.mk [("text", .str "a cat")] "CLIPTextEncode" none none)
    "a cat" rfl (by decide)

theorem encode_of_comfy (m : Metadata) (p : List (String × ComfyNode)) (w : Json)
    (h : m.comfy = some ⟨p, w⟩) (hw : truthyJson w = true) : encode m = some w := by
  unfold encode
  rw [h]
  dsimp only
  rw [if_pos hw]

theorem modelResourceCompat_preserves (m : Metadata) :
    (modelResourceCompat m).comfy = m.comfy ∧ (modelResourceCompat m).width = m.width ∧
      (modelResourceCompat m).height = m.height := by
  unfold modelResourceCompat
  split <;> exact ⟨rfl, rfl, rfl⟩

theorem controlNetOverride_preserves (initial : Sampler) (m m2 : Metadata)
    (h : controlNetOverride initial m = .ok m2) :
    m2.comfy = m.comfy ∧ m2.width = m.width ∧ m2.height = m.height := by
  unfold controlNetOverride at h
  split at h
  · split at h
    · split at h
      · injection h with hh
        rw [← hh]
        exact ⟨rfl, rfl, rfl⟩
      all_goals exact absurd h (by simp)
    · injection h with hh
      rw [← hh]
      exact ⟨rfl, rfl, rfl⟩
  all_goals (injection h with hh; rw [← hh]; exact ⟨rfl, rfl, rfl⟩)

theorem a1111_preserves (smap : List (String × String)) (m : Metadata) :
    (a1111Compatability smap m).comfy = m.comfy ∧
      (a1111Compatability smap m).width = m.width ∧
      (a1111Compatability smap m).height = m.height := by
  unfold a1111Compatability
  dsimp only
  refine ⟨?_, ?_, ?_⟩ <;> (repeat' split) <;> rfl

theorem parse_ok_fields (smap : List (String × String)) (g : List (String × ComfyNode))
    (w : Json) (m : Metadata) (h : parse smap g w = .ok m) :
    m.comfy = some ⟨resolveGraph g, w⟩ ∧ canonicalLatentDims g = some (m.width, m.height) := by
  unfold parse at h
  dsimp only at h
  cases hacc : classifyGraph ((resolveGraph g).map (fun p => p.2)) with
  | error e => rw [hacc] at h; exact absurd h (by simp)
  | ok acc =>
  rw [hacc] at h
  dsimp only at h
  cases hsel : selectSampler acc.samplers with
  | error e => rw [hsel] at h; exact absurd h (by simp)
  | ok sel =>
  rw [hsel] at h
  dsimp only at h
  cases hids : airScan w with
  | error e => rw [hids] at h; exact absurd h (by simp)
  | ok ids =>
  rw [hids] at h
  dsimp only at h
  cases sel with
  | none => exact absurd h (by simp)
  | some initial =>
  dsimp only at h
  cases hpv : getPromptTextV (jsGet initial "positive") with
  | error e => rw [hpv] at h; exact absurd h (by simp)
  | ok pv =>
  rw [hpv] at h
  dsimp only at h
  cases hnv : getPromptTextV (jsGet initial "negative") with
  | error e => rw [hnv] at h; exact absurd h (by simp)
  | ok nv =>
  rw [hnv] at h
  dsimp only at h
  cases hwh : latentDims initial with
  | error e => rw [hwh] at h; exact absurd h (by simp)
  | ok wh =>
  rw [hwh] at h
  dsimp only at h
  cases hcno : controlNetOverride initial (modelResourceCompat
      { prompt := pv, negativePrompt := nv, cfgScale := jsGet initial "cfg",
        steps := jsGet initial "steps", seed := jsGet initial "seed",
        sampler := jsGet initial "sampler_name", scheduler := jsGet initial "scheduler",
        denoise := jsGet initial "denoise", width := wh.1, height := wh.2,
        hashes := acc.hashes, models := acc.models, upscalers := acc.upscalers,
        vaes := acc.vaes, additionalResources := acc.additionalResources,
        controlNets := acc.controlNets, versionIds := ids.1, modelIds := ids.2,
        comfy := some ⟨resolveGraph g, w⟩ }) with
  | error e => rw [hcno] at h; exact absurd h (by simp)
  | ok m2 =>
  rw [hcno] at h
  dsimp only at h
  injection h with hh
  obtain ⟨hc2, hw2, hh2⟩ := controlNetOverride_preserves _ _ _ hcno
  obtain ⟨hc1, hw1, hh1⟩ := modelResourceCompat_preserves
      { prompt := pv, negativePrompt := nv, cfgScale := jsGet initial "cfg",
        steps := jsGet initial "steps", seed := jsGet initial "seed",
        sampler := jsGet initial "sampler_name", scheduler := jsGet initial "scheduler",
        denoise := jsGet initial "denoise", width := wh.1, height := wh.2,
        hashes := acc.hashes, models := acc.models, upscalers := acc.upscalers,
        vaes := acc.vaes, additionalResources := acc.additionalResources,
        controlNets := acc.controlNets, versionIds := ids.1, modelIds := ids.2,
        comfy := some ⟨resolveGraph g, w⟩ }
  obtain ⟨ha1, ha2, ha3⟩ := a1111_preserves smap m2
  constructor
  · rw [← hh, ha1, hc2, hc1]
  · unfold canonicalLatentDims
    rw [hacc]
    dsimp only
    rw [hsel]
    dsimp only
    rw [hwh]
    dsimp only
    rw [← hh, ha2, hw2, hw1, ha3, hh2, hh1]

/-- C1 counterexample: with the workflow document decoded as JSON `null`
(the non-empty input string `"null"`), `parse` succeeds and stores the null
workflow in the round-trip payload, but `encode` returns the empty string
(modelled `none`), which does not decode to the original document. -/
theorem encode_roundtrip_null_workflow_cex :
    (parse [] gW Json.null).map encode = .ok none ∧ (none : Option Json) ≠ some Json.null :=
  ⟨rfl, by simp⟩

/-- C1 (amended): for every record returned by `parse`, provided the decoded
workflow document is truthy (not `null`, `false`, `0` or the empty string),
`encode` returns a string that decodes to a document structurally equal to
the workflow document decoded from `exif.workflow`; for a falsy workflow
document `encode` returns the empty string instead. -/
theorem parse_encode_roundtrip_truthy (smap : List (String × String))
    (g : List (String × ComfyNode)) (w : Json) (m : Metadata)
    (h : parse smap g w = .ok m) (hw : truthyJson w = true) :
    encode m = some w :=
  encode_of_comfy m (resolveGraph g) w (parse_ok_fields smap g w m h).1 hw

theorem parse_encode_roundtrip_truthy_witness :
    ∃ m, parse [] gW (Json.obj []) = .ok m ∧ encode m = some (Json.obj []) := by
  cases h : parse [] gW (Json.obj []) with
  | ok m => exact ⟨m, rfl, parse_encode_roundtrip_truthy [] gW (Json.obj []) m h rfl⟩
  | error e =>
    have hok : isOkE (parse [] gW (Json.obj [])) = true := rfl
    rw [h] at hok
    exact absurd hok (by simp [isOkE])

/-- C10: the `width` and `height` of a record returned by `parse` are read
exclusively from the `width`/`height` entries of the inputs of the canonical
sampler's `latent_image` node: they equal that projection of the graph, and
two parses whose canonical latent dimensions agree produce equal
widths/heights whatever the rest of the inputs. -/
theorem parse_width_height_from_canonical_latent :
    (∀ (smap : List (String × String)) (g : List (String × ComfyNode)) (w : Json)
        (m : Metadata), parse smap g w = .ok m →
        canonicalLatentDims g = some (m.width, m.height)) ∧
    (∀ (smap1 smap2 : List (String × String)) (g1 g2 : List (String × ComfyNode))
        (w1 w2 : Json) (m1 m2 : Metadata),
        parse smap1 g1 w1 = .ok m1 → parse smap2 g2 w2 = .ok m2 →
        canonicalLatentDims g1 = canonicalLatentDims g2 →
        m1.width = m2.width ∧ m1.height = m2.height) := by
  have main : ∀ (smap : List (String × String)) (g : List (String × ComfyNode)) (w : Json)
      (m : Metadata), parse smap g w = .ok m →
      canonicalLatentDims g = some (m.width, m.height) :=
    fun smap g w m h => (parse_ok_fields smap g w m h).2
  refine ⟨main, ?_⟩
  intro smap1 smap2 g1 g2 w1 w2 m1 m2 h1 h2 hdim
  have e1 := main smap1 g1 w1 m1 h1
  have e2 := main smap2 g2 w2 m2 h2
  rw [e1, e2] at hdim
  injection hdim with hp
  exact ⟨congrArg Prod.fst hp, congrArg Prod.snd hp⟩

theorem parse_width_height_from_canonical_latent_witness :
    ∃ m, parse [] gW (Json.obj []) = .ok m ∧
      canonicalLatentDims gW = some (m.width, m.height) := by
  cases h : parse [] gW (Json.obj []) with
  | ok m =>
    exact ⟨m, rfl, parse_width_height_from_canonical_latent.1 [] gW (Json.obj []) m h⟩
  | error e =>
    have hok : isOkE (parse [] gW (Json.obj [])) = true := rfl
    rw [h] at hok
    exact absurd hok (by simp [isOkE])

end Comfy
